import Mathlib

/-!
# The counter demo of `src/counter.js`

`createCounterWasm` assembles, byte by byte, a binary WebAssembly module with one
mutable `i32` global and one exported function `count` that increments the global
and returns it.  This file embeds

* the typed-array operations the function uses (`new Uint8Array`, indexed store,
  `TypedArray.prototype.set`),
* the construction itself, statement by statement,
* the fragment of the WebAssembly binary format, validation and execution
  semantics (the host side of `WebAssembly.compile` / `instantiate` / call) that is
  needed to say what the assembled bytes mean,
* `wat2wasm` with its `try`/`catch` around the promise-returning host call,

and proves the properties the specification states about them.
-/

namespace Counter

/-! ## Typed arrays -/

/-- A `Uint8Array`: its elements, each below 256. -/
abbrev Bytes := List Nat

/-- The array `new Uint8Array(n)`: `n` zero bytes. -/
def Uint8Array.ofLength (n : Nat) : Bytes := List.replicate n 0

/-- The array `new Uint8Array([x0, x1, ...])`: every element is stored modulo 256. -/
def Uint8Array.ofList (xs : List Nat) : Bytes := xs.map (fun x => x % 256)

/-- The indexed store `a[i] = v`: the value is stored modulo 256, and a store outside the
array is ignored. -/
def Uint8Array.store (a : Bytes) (i v : Nat) : Bytes := a.set i (v % 256)

/-- The call `a.set(src, offset)`: copies `src` into `a` from index `offset` on; it throws
a `RangeError` (here `none`) when `src` does not fit. -/
def Uint8Array.setFrom (a : Bytes) (src : Bytes) (offset : Nat) : Option Bytes :=
  if offset + src.length ≤ a.length then
    some (a.take offset ++ src ++ a.drop (offset + src.length))
  else none

/-! ## `createCounterWasm`, lines 20-83 -/

/-- Line 28: magic and version. -/
def magicAndVersion : Bytes :=
  Uint8Array.ofList [0x00, 0x61, 0x73, 0x6D, 0x01, 0x00, 0x00, 0x00]

/-- Line 31: type section, `() -> i32`. -/
def typeSection : Bytes :=
  Uint8Array.ofList [0x01, 0x05, 0x01, 0x60, 0x00, 0x01, 0x7F]

/-- Line 34: function section, one function. -/
def functionSection : Bytes :=
  Uint8Array.ofList [0x03, 0x02, 0x01, 0x00]

/-- Line 37: global section, mutable `i32` initialised to 0. -/
def globalSection : Bytes :=
  Uint8Array.ofList [0x06, 0x06, 0x01, 0x7F, 0x01, 0x41, 0x00, 0x0B]

/-- Line 40: export section, export `"count"`. -/
def exportSection : Bytes :=
  Uint8Array.ofList [0x07, 0x09, 0x01, 0x05, 0x63, 0x6F, 0x75, 0x6E, 0x74, 0x00, 0x00]

/-- Lines 44-51: the expression bytes. -/
def expr : Bytes :=
  Uint8Array.ofList [
    0x23, 0x00,  -- global.get 0
    0x41, 0x01,  -- i32.const 1
    0x6A,        -- i32.add
    0x24, 0x00,  -- global.set 0
    0x23, 0x00,  -- global.get 0
    0x0B         -- end
  ]

/-- Lines 54-56: the function body built from the expression bytes `e`. -/
def functionBody (e : Bytes) : Option Bytes :=
  let functionBody := Uint8Array.ofLength (1 + e.length)
  let functionBody := Uint8Array.store functionBody 0 0x00
  Uint8Array.setFrom functionBody e 1

/-- Lines 60-63: the code section content built from a function body `fb`. -/
def codeContent (fb : Bytes) : Option Bytes :=
  let codeContent := Uint8Array.ofLength (1 + 1 + fb.length)
  let codeContent := Uint8Array.store codeContent 0 0x01
  let codeContent := Uint8Array.store codeContent 1 fb.length
  Uint8Array.setFrom codeContent fb 2

/-- Lines 66-69: the code section built from its content `cc`. -/
def codeSection (cc : Bytes) : Option Bytes :=
  let codeSection := Uint8Array.ofLength (1 + 1 + cc.length)
  let codeSection := Uint8Array.store codeSection 0 0x0A
  let codeSection := Uint8Array.store codeSection 1 cc.length
  Uint8Array.setFrom codeSection cc 2

/-- Lines 54-69 as a function of the expression bytes. -/
def buildCodeSection (e : Bytes) : Option Bytes :=
  (functionBody e).bind fun fb => (codeContent fb).bind fun cc => codeSection cc

/-- Lines 25-71: the array `parts` once the code section has been pushed. -/
def parts : Option (List Bytes) :=
  (buildCodeSection expr).map fun cs =>
    [magicAndVersion, typeSection, functionSection, globalSection, exportSection, cs]

/-- Line 74: `parts.reduce((sum, part) => sum + part.length, 0)`. -/
def totalLength (ps : List Bytes) : Nat :=
  ps.foldl (fun sum part => sum + part.length) 0

/-- Lines 76-80: the loop `for (const part of parts)`, from the state `(wasm, offset)`. -/
def copyParts : List Bytes → Bytes → Nat → Option Bytes
  | [], wasm, _ => some wasm
  | part :: rest, wasm, offset =>
    (Uint8Array.setFrom wasm part offset).bind fun wasm =>
      copyParts rest wasm (offset + part.length)

/-- Lines 74-80: combine all parts. -/
def combine (ps : List Bytes) : Option Bytes :=
  copyParts ps (Uint8Array.ofLength (totalLength ps)) 0

/-- Lines 25-80: the buffer `wasm` that `createCounterWasm` hands to `WebAssembly.compile`. -/
def wasm : Option Bytes := parts.bind combine

/-- The bytes of `wasm`, written out. -/
def wasmBytes : Bytes :=
  [0x00, 0x61, 0x73, 0x6D, 0x01, 0x00, 0x00, 0x00,
   0x01, 0x05, 0x01, 0x60, 0x00, 0x01, 0x7F,
   0x03, 0x02, 0x01, 0x00,
   0x06, 0x06, 0x01, 0x7F, 0x01, 0x41, 0x00, 0x0B,
   0x07, 0x09, 0x01, 0x05, 0x63, 0x6F, 0x75, 0x6E, 0x74, 0x00, 0x00,
   0x0A, 0x0D, 0x01, 0x0B, 0x00, 0x23, 0x00, 0x41, 0x01, 0x6A, 0x24, 0x00, 0x23, 0x00, 0x0B]

/-! ## The binary format (the host's decoder)

The host (`WebAssembly.compile`, `instantiate`, calls of exports) is not code of the
repository.  The definitions of this and the next two parts follow the WebAssembly core
specification (binary format, validation, execution) for the fragment that covers type,
function, global, export and code sections and straight-line `i32` code.  Sections with
another id are kept undecoded, and validation rejects a module that has one. -/

/-- Value types. -/
inductive ValType where
  | i32 | i64 | f32 | f64
  deriving DecidableEq, Repr

/-- Function types: parameters and results. -/
structure FuncType where
  params : List ValType
  results : List ValType
  deriving DecidableEq, Repr

/-- Instructions of the fragment; `i32.const` carries its value modulo `2^32`. -/
inductive Instr where
  | nop
  | drop
  | localGet (x : Nat)
  | localSet (x : Nat)
  | localTee (x : Nat)
  | globalGet (x : Nat)
  | globalSet (x : Nat)
  | i32Const (c : Nat)
  | i32Add
  | i32Sub
  | i32Mul
  deriving DecidableEq, Repr

/-- A global: its value type, its mutability and its initialiser expression. -/
structure Global where
  type : ValType
  mutable : Bool
  init : List Instr
  deriving DecidableEq, Repr

/-- The kind of an exported item. -/
inductive ExportKind where
  | func | table | mem | global
  deriving DecidableEq, Repr

/-- An export: the bytes of its name, its kind and the index it refers to. -/
structure Export where
  name : Bytes
  kind : ExportKind
  index : Nat
  deriving DecidableEq, Repr

/-- An entry of the code section: the declared locals and the body. -/
structure Code where
  locals : List ValType
  body : List Instr
  deriving DecidableEq, Repr

/-- A decoded module.  `others` holds id and content of every section that is not a type,
function, global, export or code section. -/
structure Module where
  types : List FuncType
  funcs : List Nat
  globals : List Global
  exports : List Export
  codes : List Code
  others : List (Nat × Bytes)
  deriving DecidableEq, Repr

/-- A decoder: consumes a prefix of the input and returns the rest. -/
abbrev Dec (α : Type) := Bytes → Option (α × Bytes)

/-- Unsigned LEB128 of at most `N` bits. -/
def readU : Nat → Dec Nat
  | _, [] => none
  | N, n :: rest =>
    if n < 128 then
      if n < 2 ^ N then some (n, rest) else none
    else if n < 256 ∧ 7 < N then
      match readU (N - 7) rest with
      | some (m, rest) => some (128 * m + (n - 128), rest)
      | none => none
    else none

/-- Signed LEB128 of at most `N` bits. -/
def readS : Nat → Dec Int
  | _, [] => none
  | N, n :: rest =>
    if n < 64 then
      if n < 2 ^ (N - 1) then some ((n : Int), rest) else none
    else if n < 128 then
      if 128 ≤ n + 2 ^ (N - 1) then some ((n : Int) - 128, rest) else none
    else if n < 256 ∧ 7 < N then
      match readS (N - 7) rest with
      | some (i, rest) => some (128 * i + ((n : Int) - 128), rest)
      | none => none
    else none

/-- A vector body: `n` items read one after the other. -/
def readItems {α : Type} (item : Dec α) : Nat → Dec (List α)
  | 0, bs => some ([], bs)
  | n + 1, bs =>
    match item bs with
    | none => none
    | some (a, rest) =>
      match readItems item n rest with
      | none => none
      | some (as, rest) => some (a :: as, rest)

/-- A vector: a `u32` count followed by that many items. -/
def readVec {α : Type} (item : Dec α) : Dec (List α) := fun bs =>
  match readU 32 bs with
  | none => none
  | some (n, rest) => readItems item n rest

/-- One byte. -/
def readByte : Dec Nat
  | [] => none
  | b :: rest => if b < 256 then some (b, rest) else none

def readValType : Dec ValType
  | 0x7F :: rest => some (.i32, rest)
  | 0x7E :: rest => some (.i64, rest)
  | 0x7D :: rest => some (.f32, rest)
  | 0x7C :: rest => some (.f64, rest)
  | _ => none

def readFuncType : Dec FuncType
  | 0x60 :: rest =>
    match readVec readValType rest with
    | none => none
    | some (ps, rest) =>
      match readVec readValType rest with
      | none => none
      | some (rs, rest) => some (⟨ps, rs⟩, rest)
  | _ => none

/-- One instruction other than the end marker. -/
def readInstr : Dec Instr
  | 0x01 :: rest => some (.nop, rest)
  | 0x1A :: rest => some (.drop, rest)
  | 0x20 :: rest => (readU 32 rest).map fun (x, r) => (.localGet x, r)
  | 0x21 :: rest => (readU 32 rest).map fun (x, r) => (.localSet x, r)
  | 0x22 :: rest => (readU 32 rest).map fun (x, r) => (.localTee x, r)
  | 0x23 :: rest => (readU 32 rest).map fun (x, r) => (.globalGet x, r)
  | 0x24 :: rest => (readU 32 rest).map fun (x, r) => (.globalSet x, r)
  | 0x41 :: rest => (readS 32 rest).map fun (c, r) => (.i32Const (c % 2 ^ 32).toNat, r)
  | 0x6A :: rest => some (.i32Add, rest)
  | 0x6B :: rest => some (.i32Sub, rest)
  | 0x6C :: rest => some (.i32Mul, rest)
  | _ => none

/-- An expression: instructions up to the end marker `0x0B`.  The first argument bounds
the number of instructions; the length of the input is always enough. -/
def readExpr : Nat → Dec (List Instr)
  | 0, _ => none
  | _ + 1, [] => none
  | fuel + 1, b :: rest =>
    if b = 0x0B then some ([], rest)
    else
      match readInstr (b :: rest) with
      | none => none
      | some (i, rest) =>
        match readExpr fuel rest with
        | none => none
        | some (is, rest) => some (i :: is, rest)

/-- Whether a byte sequence is well-formed UTF-8 (scalar values in shortest form). -/
def utf8Valid : Bytes → Bool
  | [] => true
  | b0 :: rest =>
    if b0 < 0x80 then utf8Valid rest
    else if b0 < 0xC2 then false
    else if b0 < 0xE0 then
      match rest with
      | b1 :: rest => 0x80 ≤ b1 && b1 < 0xC0 && utf8Valid rest
      | _ => false
    else if b0 < 0xF0 then
      match rest with
      | b1 :: b2 :: rest =>
        0x80 ≤ b1 && b1 < 0xC0 && 0x80 ≤ b2 && b2 < 0xC0 &&
        !(b0 = 0xE0 && b1 < 0xA0) && !(b0 = 0xED && 0xA0 ≤ b1) && utf8Valid rest
      | _ => false
    else if b0 < 0xF5 then
      match rest with
      | b1 :: b2 :: b3 :: rest =>
        0x80 ≤ b1 && b1 < 0xC0 && 0x80 ≤ b2 && b2 < 0xC0 && 0x80 ≤ b3 && b3 < 0xC0 &&
        !(b0 = 0xF0 && b1 < 0x90) && !(b0 = 0xF4 && 0x90 ≤ b1) && utf8Valid rest
      | _ => false
    else false

/-- A name: a vector of bytes that is well-formed UTF-8. -/
def readName : Dec Bytes := fun bs =>
  match readVec readByte bs with
  | none => none
  | some (name, rest) => if utf8Valid name then some (name, rest) else none

def readExportKind : Dec ExportKind
  | 0x00 :: rest => some (.func, rest)
  | 0x01 :: rest => some (.table, rest)
  | 0x02 :: rest => some (.mem, rest)
  | 0x03 :: rest => some (.global, rest)
  | _ => none

def readExport : Dec Export := fun bs =>
  match readName bs with
  | none => none
  | some (name, rest) =>
    match readExportKind rest with
    | none => none
    | some (kind, rest) =>
      match readU 32 rest with
      | none => none
      | some (index, rest) => some (⟨name, kind, index⟩, rest)

def readMut : Dec Bool
  | 0x00 :: rest => some (false, rest)
  | 0x01 :: rest => some (true, rest)
  | _ => none

def readGlobal : Dec Global := fun bs =>
  match readValType bs with
  | none => none
  | some (type, rest) =>
    match readMut rest with
    | none => none
    | some (mutable, rest) =>
      match readExpr rest.length rest with
      | none => none
      | some (init, rest) => some (⟨type, mutable, init⟩, rest)

/-- A group of locals: a count and the type they share. -/
def readLocals : Dec (List ValType) := fun bs =>
  match readU 32 bs with
  | none => none
  | some (n, rest) =>
    match readValType rest with
    | none => none
    | some (t, rest) => some (List.replicate n t, rest)

/-- An entry of the code section: a `u32` size and, in exactly that many bytes, the
local declarations and the body expression. -/
def readCode : Dec Code := fun bs =>
  match readU 32 bs with
  | none => none
  | some (size, rest) =>
    if size ≤ rest.length then
      match readVec readLocals (rest.take size) with
      | none => none
      | some (locals, body) =>
        match readExpr body.length body with
        | some (is, []) => some (⟨locals.flatten, is⟩, rest.drop size)
        | _ => none
    else none

/-- Split the bytes after the header into sections: an id byte, a `u32` size and that many
content bytes, until the input is used up.  The first argument bounds the number of
sections; the length of the input is always enough. -/
def readSections : Nat → Bytes → Option (List (Nat × Bytes))
  | _, [] => some []
  | 0, _ :: _ => none
  | fuel + 1, id :: rest =>
    if id < 256 then
      match readU 32 rest with
      | none => none
      | some (size, rest) =>
        if size ≤ rest.length then
          match readSections fuel (rest.drop size) with
          | none => none
          | some secs => some ((id, rest.take size) :: secs)
        else none
    else none

/-- The position of a section id in the prescribed order of sections (the data count
section, id 12, stands between element and code); `none` for an unknown id. -/
def sectionRank (id : Nat) : Option Nat :=
  if id = 0 then none
  else if id ≤ 9 then some id
  else if id = 12 then some 10
  else if id = 10 then some 11
  else if id = 11 then some 12
  else none

/-- Non-custom sections occur at most once and in the prescribed order: `last` is the
rank of the last non-custom section seen. -/
def sectionsOrdered : Nat → List (Nat × Bytes) → Bool
  | _, [] => true
  | last, (id, _) :: secs =>
    if id = 0 then sectionsOrdered last secs
    else
      match sectionRank id with
      | none => false
      | some r => decide (last < r) && sectionsOrdered r secs

/-- Decode a vector that has to fill its section exactly. -/
def readWhole {α : Type} (item : Dec α) (content : Bytes) : Option (List α) :=
  match readVec item content with
  | some (xs, []) => some xs
  | _ => none

/-- Add one section to the module decoded so far. -/
def addSection (m : Module) : Nat × Bytes → Option Module
  | (1, c) => (readWhole readFuncType c).map fun xs => { m with types := xs }
  | (3, c) => (readWhole (readU 32) c).map fun xs => { m with funcs := xs }
  | (6, c) => (readWhole readGlobal c).map fun xs => { m with globals := xs }
  | (7, c) => (readWhole readExport c).map fun xs => { m with exports := xs }
  | (10, c) => (readWhole readCode c).map fun xs => { m with codes := xs }
  | (id, c) => some { m with others := m.others ++ [(id, c)] }

def addSections : Module → List (Nat × Bytes) → Option Module
  | m, [] => some m
  | m, sec :: secs =>
    match addSection m sec with
    | none => none
    | some m => addSections m secs

def emptyModule : Module := ⟨[], [], [], [], [], []⟩

/-- Decode a binary module: magic, version 1, then the sections in order; the function and
code sections must have the same number of entries. -/
def decode (bs : Bytes) : Option Module :=
  if bs.take 4 = [0x00, 0x61, 0x73, 0x6D] ∧ (bs.drop 4).take 4 = [0x01, 0x00, 0x00, 0x00] then
    match readSections (bs.drop 8).length (bs.drop 8) with
    | none => none
    | some secs =>
      if sectionsOrdered 0 secs then
        match addSections emptyModule secs with
        | none => none
        | some m => if m.funcs.length = m.codes.length then some m else none
      else none
  else none

/-- The module that `createCounterWasm` encodes. -/
def counterModule : Module where
  types := [⟨[], [.i32]⟩]
  funcs := [0]
  globals := [⟨.i32, true, [.i32Const 0]⟩]
  exports := [⟨[0x63, 0x6F, 0x75, 0x6E, 0x74], .func, 0⟩]
  codes := [⟨[], [.globalGet 0, .i32Const 1, .i32Add, .globalSet 0, .globalGet 0]⟩]
  others := []

/-! ## Validation (the host's type checker) -/

/-- The typing context of a function body: type and mutability of every global, and the
types of the locals (parameters first). -/
structure Ctx where
  globals : List (ValType × Bool)
  locals : List ValType

/-- Type one instruction against the operand-type stack (top first); `none` when the
instruction is ill-typed there. -/
def checkInstr (C : Ctx) : Instr → List ValType → Option (List ValType)
  | .nop, st => some st
  | .drop, _ :: st => some st
  | .localGet x, st => (C.locals.get? x).map fun t => t :: st
  | .localSet x, t :: st => if C.locals.get? x = some t then some st else none
  | .localTee x, t :: st => if C.locals.get? x = some t then some (t :: st) else none
  | .globalGet x, st => (C.globals.get? x).map fun g => g.1 :: st
  | .globalSet x, t :: st => if C.globals.get? x = some (t, true) then some st else none
  | .i32Const _, st => some (.i32 :: st)
  | .i32Add, .i32 :: .i32 :: st => some (.i32 :: st)
  | .i32Sub, .i32 :: .i32 :: st => some (.i32 :: st)
  | .i32Mul, .i32 :: .i32 :: st => some (.i32 :: st)
  | _, _ => none

def checkInstrs (C : Ctx) : List Instr → List ValType → Option (List ValType)
  | [], st => some st
  | i :: is, st =>
    match checkInstr C i st with
    | none => none
    | some st => checkInstrs C is st

/-- An expression has type `[] -> results`: from the empty stack it reaches the end marker
with exactly `results` on the stack. -/
def checkExpr (C : Ctx) (is : List Instr) (results : List ValType) : Bool :=
  checkInstrs C is [] = some results.reverse

/-- Constant instructions.  Without imports no global may occur in an initialiser. -/
def Instr.isConst : Instr → Bool
  | .i32Const _ => true
  | _ => false

def globalTypes (m : Module) : List (ValType × Bool) :=
  m.globals.map fun g => (g.type, g.mutable)

def checkGlobal (g : Global) : Bool :=
  g.init.all Instr.isConst && checkExpr ⟨[], []⟩ g.init [g.type]

def checkExport (m : Module) (e : Export) : Bool :=
  match e.kind with
  | .func => e.index < m.funcs.length
  | .global => e.index < m.globals.length
  | .table => false
  | .mem => false

def checkFunc (m : Module) (typeidx : Nat) (c : Code) : Bool :=
  match m.types.get? typeidx with
  | none => false
  | some ft => checkExpr ⟨globalTypes m, ft.params ++ c.locals⟩ c.body ft.results

/-- Validity of a decoded module of the fragment: only custom sections are undecoded,
every global initialiser is a constant expression of the global type, every function
has a declared type and a body of that type, every export names a declared item, and
export names are pairwise different. -/
def validate (m : Module) : Bool :=
  m.others.all (fun sec => sec.1 = 0) &&
  m.globals.all checkGlobal &&
  m.funcs.length = m.codes.length &&
  (m.funcs.zip m.codes).all (fun fc => checkFunc m fc.1 fc.2) &&
  m.exports.all (checkExport m) &&
  (m.exports.map Export.name).Nodup

/-- The host's `WebAssembly.compile` / `WebAssembly.validate` on a buffer: decode, then
validate; `none` is a `CompileError`. -/
def compile (bs : Bytes) : Option Module :=
  match decode bs with
  | none => none
  | some m => if validate m then some m else none

/-! ## Execution (the host's instances) -/

/-- A value: its type and its bit pattern as a natural number. -/
structure Val where
  type : ValType
  bits : Nat
  deriving DecidableEq, Repr

/-- A global instance in the store. -/
structure GlobalInst where
  mutable : Bool
  value : Val
  deriving DecidableEq, Repr

/-- The store: the global instances of all module instances, by address. -/
structure Store where
  globals : List GlobalInst
  deriving DecidableEq, Repr

/-- A module instance: its module and the store addresses of its globals. -/
structure Instance where
  module : Module
  globaladdrs : List Nat
  deriving DecidableEq, Repr

/-- What can go wrong when executing code that was not validated. -/
inductive ExecError where
  | stackUnderflow
  | typeMismatch
  | badIndex
  | immutableGlobal
  | noSuchExport
  deriving DecidableEq, Repr

/-- The state of a running function body: store, locals and operand stack (top first). -/
structure Config where
  store : Store
  locals : List Val
  stack : List Val
  deriving DecidableEq, Repr

/-- A binary `i32` operation: pops two `i32` operands and pushes the result modulo `2^32`. -/
def i32Binop (f : Nat → Nat → Nat) (c : Config) : Except ExecError Config :=
  match c.stack with
  | ⟨.i32, b⟩ :: ⟨.i32, a⟩ :: st => .ok { c with stack := ⟨.i32, f a b % 2 ^ 32⟩ :: st }
  | _ :: _ :: _ => .error .typeMismatch
  | _ => .error .stackUnderflow

/-- Execute one instruction. -/
def execInstr (inst : Instance) (c : Config) : Instr → Except ExecError Config
  | .nop => .ok c
  | .drop =>
    match c.stack with
    | _ :: st => .ok { c with stack := st }
    | [] => .error .stackUnderflow
  | .localGet x =>
    match c.locals.get? x with
    | some v => .ok { c with stack := v :: c.stack }
    | none => .error .badIndex
  | .localSet x =>
    match c.stack with
    | v :: st =>
      if x < c.locals.length then .ok { c with locals := c.locals.set x v, stack := st }
      else .error .badIndex
    | [] => .error .stackUnderflow
  | .localTee x =>
    match c.stack with
    | v :: _ =>
      if x < c.locals.length then .ok { c with locals := c.locals.set x v }
      else .error .badIndex
    | [] => .error .stackUnderflow
  | .globalGet x =>
    match inst.globaladdrs.get? x with
    | none => .error .badIndex
    | some a =>
      match c.store.globals.get? a with
      | none => .error .badIndex
      | some g => .ok { c with stack := g.value :: c.stack }
  | .globalSet x =>
    match c.stack with
    | [] => .error .stackUnderflow
    | v :: st =>
      match inst.globaladdrs.get? x with
      | none => .error .badIndex
      | some a =>
        match c.store.globals.get? a with
        | none => .error .badIndex
        | some g =>
          if g.mutable then
            .ok { c with store := ⟨c.store.globals.set a { g with value := v }⟩, stack := st }
          else .error .immutableGlobal
  | .i32Const n => .ok { c with stack := ⟨.i32, n⟩ :: c.stack }
  | .i32Add => i32Binop (fun a b => a + b) c
  | .i32Sub => i32Binop (fun a b => a + 2 ^ 32 - b) c
  | .i32Mul => i32Binop (fun a b => a * b) c

/-- Execute an instruction sequence up to its end marker. -/
def execInstrs (inst : Instance) : List Instr → Config → Except ExecError Config
  | [], c => .ok c
  | i :: is, c =>
    match execInstr inst c i with
    | .error e => .error e
    | .ok c => execInstrs inst is c

/-- Evaluate the (constant) initialiser of a global. -/
def evalInit (is : List Instr) : Except ExecError Val :=
  match execInstrs ⟨emptyModule, []⟩ is ⟨⟨[]⟩, [], []⟩ with
  | .error e => .error e
  | .ok c =>
    match c.stack with
    | v :: _ => .ok v
    | [] => .error .stackUnderflow

/-- Allocate the globals of a module at fresh addresses at the end of the store. -/
def allocGlobals : List Global → Store → Except ExecError (Store × List Nat)
  | [], s => .ok (s, [])
  | g :: gs, s =>
    match evalInit g.init with
    | .error e => .error e
    | .ok v =>
      match allocGlobals gs ⟨s.globals ++ [⟨g.mutable, v⟩]⟩ with
      | .error e => .error e
      | .ok (s', addrs) => .ok (s', s.globals.length :: addrs)

/-- The host's `WebAssembly.instantiate` on a module without imports. -/
def instantiate (m : Module) (s : Store) : Except ExecError (Store × Instance) :=
  match allocGlobals m.globals s with
  | .error e => .error e
  | .ok (s', addrs) => .ok (s', ⟨m, addrs⟩)

/-- The default value of a local. -/
def defaultVal (t : ValType) : Val := ⟨t, 0⟩

/-- Invoke function `f` of an instance: run its body on an empty operand stack and return
the new store and the result values. -/
def invoke (inst : Instance) (s : Store) (f : Nat) (args : List Val) :
    Except ExecError (Store × List Val) :=
  match inst.module.funcs.get? f, inst.module.codes.get? f with
  | some typeidx, some code =>
    match inst.module.types.get? typeidx with
    | none => .error .badIndex
    | some ft =>
      if args.map Val.type = ft.params then
        match execInstrs inst code.body ⟨s, args ++ code.locals.map defaultVal, []⟩ with
        | .error e => .error e
        | .ok c =>
          if ft.results.length ≤ c.stack.length then
            .ok (c.store, (c.stack.take ft.results.length).reverse)
          else .error .stackUnderflow
      else .error .typeMismatch
  | _, _ => .error .badIndex

/-- The two's complement reading of an `N`-bit pattern. -/
def toSigned (N : Nat) (b : Nat) : Int :=
  if b < 2 ^ (N - 1) then (b : Int) else (b : Int) - 2 ^ N

/-- The values a call can hand back to JavaScript. -/
inductive JsValue where
  | undefined
  | number (n : Int)
  | bigint (n : Int)
  deriving DecidableEq, Repr

/-- Conversion of the results of a call to a JavaScript value: an `i32` becomes the
Number that is its signed reading; floating-point and multiple results are outside the
fragment. -/
def toJSValue : List Val → Except ExecError JsValue
  | [] => .ok .undefined
  | [⟨.i32, b⟩] => .ok (.number (toSigned 32 b))
  | [⟨.i64, b⟩] => .ok (.bigint (toSigned 64 b))
  | _ => .error .typeMismatch

/-- Look up an exported function by name. -/
def findExportedFunc (m : Module) (name : Bytes) : Option Nat :=
  (m.exports.find? fun e => e.name = name ∧ e.kind = .func).map Export.index

/-- A call `instance.exports[name]()` without arguments. -/
def callExport (inst : Instance) (s : Store) (name : Bytes) :
    Except ExecError (Store × JsValue) :=
  match findExportedFunc inst.module name with
  | none => .error .noSuchExport
  | some f =>
    match invoke inst s f [] with
    | .error e => .error e
    | .ok (s', vs) =>
      match toJSValue vs with
      | .error e => .error e
      | .ok r => .ok (s', r)

/-- The UTF-8 bytes of an ASCII string. -/
def asciiBytes (name : String) : Bytes := name.toList.map Char.toNat

/-- Line 99: a call `count()`. -/
def callCount (inst : Instance) (s : Store) : Except ExecError (Store × JsValue) :=
  callExport inst s (asciiBytes "count")

/-- The values returned by `n` successive calls `count()`, and the store after them. -/
def callTimes (inst : Instance) : Nat → Store → Except ExecError (Store × List JsValue)
  | 0, s => .ok (s, [])
  | n + 1, s =>
    match callCount inst s with
    | .error e => .error e
    | .ok (s, r) =>
      match callTimes inst n s with
      | .error e => .error e
      | .ok (s', rs) => .ok (s', r :: rs)

/-- Lines 20-83: `createCounterWasm` assembles `wasm` and returns what the host's
`WebAssembly.compile` makes of it; `none` when a step throws or compilation fails. -/
def createCounterWasm : Option Module := wasm.bind compile

/-- Lines 91-92 of `init`: await `createCounterWasm()` and instantiate the module in the
given store; `none` when any step throws. -/
def newInstance (s : Store) : Option (Store × Instance) :=
  match createCounterWasm with
  | none => none
  | some m =>
    match instantiate m s with
    | .error _ => none
    | .ok r => some r

/-- A fresh instance, alone in its store. -/
def freshInstance : Option (Store × Instance) := newInstance ⟨[]⟩

/-- Lines 91-100 of `init`: the values `newCount` of the first `n` clicks on the button and
the store after them; `none` when a step throws. -/
def clicks (n : Nat) : Option (Store × List JsValue) :=
  match freshInstance with
  | none => none
  | some (s, inst) =>
    match callTimes inst n s with
    | .error _ => none
    | .ok r => some r

/-- The value returned by the `n`-th call of `count` on a fresh instance (`n ≥ 1`): the call
made after `n - 1` earlier calls. -/
def nthCall (n : Nat) : Option JsValue :=
  match clicks (n - 1) with
  | none => none
  | some (s, _) =>
    match freshInstance with
    | none => none
    | some (_, inst) =>
      match callCount inst s with
      | .error _ => none
      | .ok (_, r) => some r

/-- The value of global 0 of the instance, read from the store. -/
def global0 (inst : Instance) (s : Store) : Option Nat :=
  match inst.globaladdrs.get? 0 with
  | none => none
  | some a => (s.globals.get? a).map fun g => g.value.bits

/-- Two instances created one after the other from the buffer of `createCounterWasm`,
in one store. -/
def twoInstances : Option (Store × Instance × Instance) :=
  match newInstance ⟨[]⟩ with
  | none => none
  | some (s, a) =>
    match newInstance s with
    | none => none
    | some (s', b) => some (s', a, b)

/-- An interleaved sequence of calls: `true` is a call `A.count()`, `false` a call
`B.count()`.  The result pairs every call with the value it returned. -/
def runSchedule (a b : Instance) :
    List Bool → Store → Except ExecError (Store × List (Bool × JsValue))
  | [], s => .ok (s, [])
  | onA :: sch, s =>
    match callCount (if onA then a else b) s with
    | .error e => .error e
    | .ok (s, r) =>
      match runSchedule a b sch s with
      | .error e => .error e
      | .ok (s', rs) => .ok (s', (onA, r) :: rs)

/-- The values returned by the calls on one of the two instances, in order. -/
def resultsOf (onA : Bool) (rs : List (Bool × JsValue)) : List JsValue :=
  (rs.filter fun p => p.1 = onA).map Prod.snd

/-- The global index an instruction refers to, if any. -/
def Instr.globalIndex : Instr → Option Nat
  | .globalGet x => some x
  | .globalSet x => some x
  | _ => none

/-- The sections of the assembled buffer as the decoder splits them: id and content. -/
def wasmSections : Option (List (Nat × Bytes)) :=
  wasm.bind fun bs => readSections (bs.drop 8).length (bs.drop 8)

/-- The instance of the counter module whose global 0 lives at store address `a`. -/
def counterAt (a : Nat) : Instance := ⟨counterModule, [a]⟩

/-- A mutable `i32` global instance holding `v`. -/
def counterGlobal (v : Nat) : GlobalInst := ⟨true, ⟨.i32, v⟩⟩

/-- The number a byte sequence stands for when read as a little-endian integer. -/
def littleEndian : Bytes → Nat
  | [] => 0
  | b :: rest => b + 256 * littleEndian rest

/-- The number of bytes each instruction of an expression takes, the end marker `0x0B`
included as the last entry.  The first argument bounds the number of instructions. -/
def instrSizes : Nat → Bytes → Option (List Nat)
  | 0, _ => none
  | _ + 1, [] => none
  | fuel + 1, b :: rest =>
    if b = 0x0B then some [1]
    else
      match readInstr (b :: rest) with
      | none => none
      | some (_, rest') =>
        match instrSizes fuel rest' with
        | none => none
        | some sizes => some (((b :: rest).length - rest'.length) :: sizes)

/-! ## Canonical encoding

The shortest LEB128 encodings and the binary format written as a stream of fields, so
that the bytes of the buffer that are LEB128 numbers can be told from the others. -/

/-- The shortest unsigned LEB128 encoding of `v`; the first argument bounds the number of
bytes (5 are enough for 32 bits). -/
def encodeU : Nat → Nat → Bytes
  | 0, _ => []
  | fuel + 1, v =>
    if v < 128 then [v] else (v % 128 + 128) :: encodeU fuel (v / 128)

/-- The shortest signed LEB128 encoding of `v`; the first argument bounds the number of
bytes. -/
def encodeS : Nat → Int → Bytes
  | 0, _ => []
  | fuel + 1, v =>
    if -64 ≤ v ∧ v < 64 then [(v % 128).toNat]
    else ((v % 128).toNat + 128) :: encodeS fuel (v / 128)

/-- A field of the binary format: a plain byte, an unsigned 32-bit number or a signed
32-bit number (both written in LEB128). -/
inductive Field where
  | raw (b : Nat)
  | u32 (v : Nat)
  | s32 (v : Int)
  deriving DecidableEq, Repr

/-- The bytes of a field, numbers in their shortest encoding. -/
def Field.bytes : Field → Bytes
  | .raw b => [b]
  | .u32 v => encodeU 5 v
  | .s32 v => encodeS 5 v

/-- The bytes of a stream of fields. -/
def render (fs : List Field) : Bytes := (fs.map Field.bytes).flatten

/-- A vector: the count, then the items. -/
def vecFields {α : Type} (item : α → List Field) (xs : List α) : List Field :=
  .u32 xs.length :: (xs.map item).flatten

def valTypeFields : ValType → List Field
  | .i32 => [.raw 0x7F]
  | .i64 => [.raw 0x7E]
  | .f32 => [.raw 0x7D]
  | .f64 => [.raw 0x7C]

def funcTypeFields (ft : FuncType) : List Field :=
  .raw 0x60 :: (vecFields valTypeFields ft.params ++ vecFields valTypeFields ft.results)

def instrFields : Instr → List Field
  | .nop => [.raw 0x01]
  | .drop => [.raw 0x1A]
  | .localGet x => [.raw 0x20, .u32 x]
  | .localSet x => [.raw 0x21, .u32 x]
  | .localTee x => [.raw 0x22, .u32 x]
  | .globalGet x => [.raw 0x23, .u32 x]
  | .globalSet x => [.raw 0x24, .u32 x]
  | .i32Const c => [.raw 0x41, .s32 (toSigned 32 c)]
  | .i32Add => [.raw 0x6A]
  | .i32Sub => [.raw 0x6B]
  | .i32Mul => [.raw 0x6C]

/-- An expression: its instructions and the end marker. -/
def exprFields (is : List Instr) : List Field :=
  (is.map instrFields).flatten ++ [.raw 0x0B]

def globalFields (g : Global) : List Field :=
  valTypeFields g.type ++ [.raw (if g.mutable then 0x01 else 0x00)] ++ exprFields g.init

def exportKindByte : ExportKind → Nat
  | .func => 0x00
  | .table => 0x01
  | .mem => 0x02
  | .global => 0x03

def exportFields (e : Export) : List Field :=
  .u32 e.name.length :: (e.name.map Field.raw ++ [.raw (exportKindByte e.kind), .u32 e.index])

/-- An entry of the code section: the size of what follows, the locals (one group for
each local) and the body. -/
def codeFields (c : Code) : List Field :=
  let func := vecFields (fun t => .u32 1 :: valTypeFields t) c.locals ++ exprFields c.body
  .u32 (render func).length :: func

/-- A section: its id, the size of its content and the content; nothing for an empty
vector. -/
def sectionFields {α : Type} (id : Nat) (item : α → List Field) (xs : List α) : List Field :=
  if xs.isEmpty then []
  else
    let content := vecFields item xs
    .raw id :: .u32 (render content).length :: content

/-- The fields of a module of the fragment: header and sections in the prescribed order. -/
def moduleFields (m : Module) : List Field :=
  [.raw 0x00, .raw 0x61, .raw 0x73, .raw 0x6D, .raw 0x01, .raw 0x00, .raw 0x00, .raw 0x00] ++
    sectionFields 1 funcTypeFields m.types ++
    sectionFields 3 (fun x => [.u32 x]) m.funcs ++
    sectionFields 6 globalFields m.globals ++
    sectionFields 7 exportFields m.exports ++
    sectionFields 10 codeFields m.codes

/-- The unsigned numbers among the fields, in order. -/
def unsignedValues (fs : List Field) : List Nat :=
  fs.filterMap fun f => match f with
    | .u32 v => some v
    | _ => none

/-- The signed numbers among the fields, in order. -/
def signedValues (fs : List Field) : List Int :=
  fs.filterMap fun f => match f with
    | .s32 v => some v
    | _ => none

/-! ## `wat2wasm`, lines 2-18 -/

/-- The exceptions that occur here. -/
inductive JsError where
  | compileError
  | rangeError
  deriving DecidableEq, Repr

/-- A promise, given by the state it settles in. -/
inductive Promise (α : Type) where
  | resolved (value : α)
  | rejected (reason : JsError)
  deriving DecidableEq, Repr

/-- The outcome of evaluating a call: `ok` is a normal return, `error` an exception thrown
to the caller, which an enclosing `try` catches. -/
abbrev Completion (α : Type) := Except JsError α

/-- The UTF-8 bytes of one character. -/
def utf8EncodeChar (c : Char) : Bytes :=
  let n := c.toNat
  if n < 0x80 then [n]
  else if n < 0x800 then [0xC0 + n / 64, 0x80 + n % 64]
  else if n < 0x10000 then [0xE0 + n / 4096, 0x80 + n / 64 % 64, 0x80 + n % 64]
  else [0xF0 + n / 262144, 0x80 + n / 4096 % 64, 0x80 + n / 64 % 64, 0x80 + n % 64]

/-- Lines 5-6: `new TextEncoder().encode(wat)`, the UTF-8 bytes of the text. -/
def TextEncoder.encode (wat : String) : Bytes :=
  (wat.toList.map utf8EncodeChar).flatten

/-- The host's `WebAssembly.compile(bytes)`: it returns a promise in every case; the
promise is rejected with a `CompileError` when the bytes are not a valid module.  The call
itself does not throw. -/
def WebAssembly.compile (bs : Bytes) : Completion (Promise Module) :=
  match Counter.compile bs with
  | some m => .ok (.resolved m)
  | none => .ok (.rejected .compileError)

/-- Lines 20-83 as a call, over a host function `hostCompile`: a `RangeError` of a `set` is
thrown, otherwise line 82 returns what `hostCompile(wasm)` returns. -/
def createCounterWasmWith (hostCompile : Bytes → Completion (Promise Module)) :
    Completion (Promise Module) :=
  match wasm with
  | none => .error .rangeError
  | some bs => hostCompile bs

/-- Lines 2-18 over a host function `hostCompile`: line 13 returns the value of the call in
the `try` block when the call returns, and line 16 returns `createCounterWasm()` when the
call throws. -/
def wat2wasmWith (hostCompile : Bytes → Completion (Promise Module)) (wat : String) :
    Completion (Promise Module) :=
  let watBytes := TextEncoder.encode wat
  match hostCompile watBytes with
  | .ok promise => .ok promise
  | .error _ => createCounterWasmWith hostCompile

/-- Lines 2-18: `wat2wasm(wat)` on the host. -/
def wat2wasm (wat : String) : Completion (Promise Module) :=
  wat2wasmWith WebAssembly.compile wat

/-- Lines 20-83: the call `createCounterWasm()` on the host. -/
def createCounterWasmCall : Completion (Promise Module) :=
  createCounterWasmWith WebAssembly.compile

/-! ## Theorems -/

theorem wasm_eq : wasm = some wasmBytes := by decide

theorem createCounterWasm_eq : createCounterWasm = some counterModule := by decide

theorem asciiBytes_count : asciiBytes "count" = [0x63, 0x6F, 0x75, 0x6E, 0x74] := by decide

theorem findExportedFunc_count :
    findExportedFunc counterModule (asciiBytes "count") = some 0 := by decide

/-- One call of `count` on the instance at address 0: the global goes from `v` to
`(v + 1) % 2^32`, the rest of the store is untouched, and the new value is returned. -/
theorem callCount_at0 (v : Nat) (rest : List GlobalInst) :
    callCount (counterAt 0) ⟨counterGlobal v :: rest⟩ =
      .ok (⟨counterGlobal ((v + 1) % 2 ^ 32) :: rest⟩,
        .number (toSigned 32 ((v + 1) % 2 ^ 32))) := by
  simp only [callCount, callExport, counterAt, findExportedFunc_count]
  simp [invoke, counterModule, execInstrs, execInstr, i32Binop, toJSValue, counterGlobal,
    defaultVal]

theorem callCount_at1 (x : GlobalInst) (v : Nat) (rest : List GlobalInst) :
    callCount (counterAt 1) ⟨x :: counterGlobal v :: rest⟩ =
      .ok (⟨x :: counterGlobal ((v + 1) % 2 ^ 32) :: rest⟩,
        .number (toSigned 32 ((v + 1) % 2 ^ 32))) := by
  simp only [callCount, callExport, counterAt, findExportedFunc_count]
  simp [invoke, counterModule, execInstrs, execInstr, i32Binop, toJSValue, counterGlobal,
    defaultVal]


theorem freshInstance_eq : freshInstance = some (⟨[counterGlobal 0]⟩, counterAt 0) := by decide

/-- After `n` calls on the instance at address 0 the global has advanced by `n` modulo
`2^32`, and the calls returned the signed readings of the successive values. -/
theorem callTimes_at0 (n c : Nat) (rest : List GlobalInst) :
    callTimes (counterAt 0) n ⟨counterGlobal (c % 2 ^ 32) :: rest⟩ =
      .ok (⟨counterGlobal ((c + n) % 2 ^ 32) :: rest⟩,
        (List.range' (c + 1) n).map fun k => .number (toSigned 32 (k % 2 ^ 32))) := by
  induction n generalizing c with
  | zero => simp [callTimes]
  | succ n ih =>
    have hstep : (c % 2 ^ 32 + 1) % 2 ^ 32 = (c + 1) % 2 ^ 32 := by omega
    have hadd : c + 1 + n = c + (n + 1) := by omega
    simp only [callTimes, callCount_at0, hstep, ih (c + 1), hadd, List.range'_succ, List.map_cons]

theorem clicks_eq (n : Nat) :
    clicks n = some (⟨[counterGlobal (n % 2 ^ 32)]⟩,
      (List.range' 1 n).map fun k => .number (toSigned 32 (k % 2 ^ 32))) := by
  have h := callTimes_at0 n 0 []
  simp only [Nat.zero_mod, Nat.zero_add] at h
  simp only [clicks, freshInstance_eq, h]

theorem nthCall_eq (n : Nat) (h : 1 ≤ n) :
    nthCall n = some (.number (toSigned 32 (n % 2 ^ 32))) := by
  have hmod : ((n - 1) % 2 ^ 32 + 1) % 2 ^ 32 = n % 2 ^ 32 := by omega
  simp only [nthCall, clicks_eq, freshInstance_eq, callCount_at0, hmod]

theorem toSigned_small (n : Nat) (h : n < 2 ^ 31) : toSigned 32 (n % 2 ^ 32) = n := by
  have h1 : n % 2 ^ 32 = n := Nat.mod_eq_of_lt (by omega)
  simp only [toSigned, h1]
  norm_num at h ⊢
  exact h

/-- C1: in the assembled buffer every section's size byte equals the number of its content
bytes (5, 2, 6, 9 and 13 for type, function, global, export and code), the sections lie
back to back after the header so that each content ends at the next section's id or at
the end of the buffer, and the body-size byte of the code section equals the length of the
function body that follows it (11). -/
theorem C1_section_sizes :
    (parts.map fun ps => ps.tail.map fun sec => (sec.get? 0, sec.get? 1, (sec.drop 2).length)) =
        some [(some 1, some 5, 5), (some 3, some 2, 2), (some 6, some 6, 6),
          (some 7, some 9, 9), (some 10, some 13, 13)] ∧
      parts.map List.head? = some (some magicAndVersion) ∧
      wasm = parts.map List.flatten ∧
      ((functionBody expr).bind fun fb =>
          (codeContent fb).bind fun cc =>
            (codeSection cc).map fun cs =>
              (cc.get? 1, fb.length, decide (cc.drop 2 = fb), decide (cs.drop 2 = cc))) =
        some (some 11, 11, true, true) := by
  decide

/-- C2 (as stated, refuted): the 2^31-th call of `count` on a fresh instance does not return
2^31; it returns -2147483648. -/
theorem C2_counterexample :
    nthCall 2147483648 = some (.number (-2147483648)) ∧
      nthCall 2147483648 ≠ some (.number 2147483648) := by
  have h := nthCall_eq 2147483648 (by decide)
  have hs : toSigned 32 (2147483648 % 2 ^ 32) = -2147483648 := by decide
  rw [hs] at h
  rw [h]
  exact ⟨rfl, by decide⟩

/-- C2 (amended): for every `n` with `1 ≤ n < 2^31`, the `n`-th call of `count` on a fresh
instance returns `n`, and the first `n` calls return the sequence `1, 2, ..., n`. -/
theorem C2_nth_call_returns_n (n : Nat) (h1 : 1 ≤ n) (h : n < 2 ^ 31) :
    nthCall n = some (.number n) ∧
      (clicks n).map Prod.snd = some ((List.range' 1 n).map fun k => .number (k : Int)) := by
  refine ⟨by rw [nthCall_eq n h1, toSigned_small n h], ?_⟩
  rw [clicks_eq]
  simp only [Option.map_some', Option.some.injEq]
  apply List.map_congr_left
  intro k hk
  have hk2 := List.mem_range'_1.mp hk
  rw [toSigned_small k (by omega)]

theorem C2_nth_call_returns_n_witness :
    nthCall 5 = some (.number (5 : Nat)) ∧
      (clicks 5).map Prod.snd = some ((List.range' 1 5).map fun k => .number (k : Int)) :=
  C2_nth_call_returns_n 5 (by decide) (by decide)

/-- C3: the assembled buffer is accepted by the validator: it decodes completely (magic,
version, length-prefixed sections, nothing left over and nothing missing) and the decoded
module type-checks, so that compilation succeeds. -/
theorem C3_validator_accepts :
    ∃ bs m, wasm = some bs ∧ decode bs = some m ∧ validate m = true ∧
      compile bs = some m ∧ createCounterWasm = some m ∧
      readSections (bs.drop 8).length (bs.drop 8) ≠ none ∧
      (m.funcs.zip m.codes).all (fun fc => checkFunc m fc.1 fc.2) = true ∧
      m.exports.all (checkExport m) = true :=
  ⟨wasmBytes, counterModule, by decide, by decide, by decide, by decide, by decide,
    by decide, by decide, by decide⟩

/-- C4: the export section declares exactly one export: count 1, name length 5, the bytes
of `"count"`, kind 0 (function), index 0; the decoded module has this single export. -/
theorem C4_single_export :
    exportSection = [0x07, 0x09, 0x01, 0x05] ++ asciiBytes "count" ++ [0x00, 0x00] ∧
      (parts.map fun ps => ps.filter fun sec => sec.head? = some 0x07) = some [exportSection] ∧
      (wasm.bind decode).map Module.exports = some [⟨asciiBytes "count", .func, 0⟩] ∧
      (wasm.bind decode).map (fun m => m.exports.length) = some 1 := by
  decide

/-- C5: three calls in succession on a fresh instance return exactly 1, 2 and 3 and leave
global 0 equal to 3. -/
theorem C5_three_calls :
    (clicks 3).map Prod.snd = some [.number 1, .number 2, .number 3] ∧
      (freshInstance.bind fun si => (clicks 3).bind fun r => global0 si.2 r.1) = some 3 ∧
      (freshInstance.bind fun si => global0 si.2 si.1) = some 0 := by
  decide


theorem twoInstances_eq :
    twoInstances = some (⟨[counterGlobal 0, counterGlobal 0]⟩, counterAt 0, counterAt 1) := by
  decide

/-- A call on the instance at address 0 changes nothing in the store beyond address 0. -/
theorem callCount_at0_frame (s s' : Store) (r : JsValue)
    (h : callCount (counterAt 0) s = .ok (s', r)) :
    s'.globals.tail = s.globals.tail := by
  obtain ⟨gs⟩ := s
  cases gs with
  | nil =>
    simp only [callCount, callExport, counterAt, findExportedFunc_count] at h
    simp [invoke, counterModule, execInstrs, execInstr] at h
  | cons g rest =>
    obtain ⟨mu, ty, v⟩ := g
    cases mu <;> cases ty <;>
      simp only [callCount, callExport, counterAt, findExportedFunc_count] at h <;>
      simp [invoke, counterModule, execInstrs, execInstr, i32Binop, toJSValue, defaultVal] at h
    obtain ⟨h1, -⟩ := h
    rw [← h1]
    rfl

/-- A call on the instance at address 1 changes nothing in the store at address 0. -/
theorem callCount_at1_frame (s s' : Store) (r : JsValue)
    (h : callCount (counterAt 1) s = .ok (s', r)) :
    s'.globals.head? = s.globals.head? := by
  obtain ⟨gs⟩ := s
  match gs with
  | [] =>
    simp only [callCount, callExport, counterAt, findExportedFunc_count] at h
    simp [invoke, counterModule, execInstrs, execInstr] at h
  | [_] =>
    simp only [callCount, callExport, counterAt, findExportedFunc_count] at h
    simp [invoke, counterModule, execInstrs, execInstr] at h
  | x :: g :: rest =>
    obtain ⟨mu, ty, v⟩ := g
    cases mu <;> cases ty <;>
      simp only [callCount, callExport, counterAt, findExportedFunc_count] at h <;>
      simp [invoke, counterModule, execInstrs, execInstr, i32Binop, toJSValue, defaultVal] at h
    obtain ⟨h1, -⟩ := h
    rw [← h1]
    rfl

theorem resultsOf_cons_same (b : Bool) (r : JsValue) (rs : List (Bool × JsValue)) :
    resultsOf b ((b, r) :: rs) = r :: resultsOf b rs := by
  simp [resultsOf]

theorem resultsOf_cons_other (b c : Bool) (r : JsValue) (rs : List (Bool × JsValue))
    (h : c ≠ b) : resultsOf b ((c, r) :: rs) = resultsOf b rs := by
  simp [resultsOf, h]

/-- Any interleaving of calls on the instances at addresses 0 and 1 advances each global by
the number of calls on its own instance, and each instance returns its own sequence. -/
theorem runSchedule_eq (sch : List Bool) (ca cb : Nat) :
    ∃ rs, runSchedule (counterAt 0) (counterAt 1) sch
          ⟨[counterGlobal (ca % 2 ^ 32), counterGlobal (cb % 2 ^ 32)]⟩ =
        .ok (⟨[counterGlobal ((ca + sch.count true) % 2 ^ 32),
              counterGlobal ((cb + sch.count false) % 2 ^ 32)]⟩, rs) ∧
      resultsOf true rs =
        (List.range' (ca + 1) (sch.count true)).map
          (fun k => .number (toSigned 32 (k % 2 ^ 32))) ∧
      resultsOf false rs =
        (List.range' (cb + 1) (sch.count false)).map
          (fun k => .number (toSigned 32 (k % 2 ^ 32))) := by
  induction sch generalizing ca cb with
  | nil => exact ⟨[], by simp [runSchedule, resultsOf]⟩
  | cons onA sch ih =>
    cases onA with
    | true =>
      have hstep : (ca % 2 ^ 32 + 1) % 2 ^ 32 = (ca + 1) % 2 ^ 32 := by omega
      have hcA : List.count true (true :: sch) = List.count true sch + 1 :=
        List.count_cons_self _ _
      have hcB : List.count false (true :: sch) = List.count false sch :=
        List.count_cons_of_ne (by decide) sch
      obtain ⟨rs, hrun, hA, hB⟩ := ih (ca + 1) cb
      refine ⟨(true, .number (toSigned 32 ((ca + 1) % 2 ^ 32))) :: rs, ?_, ?_, ?_⟩
      · simp only [runSchedule, if_true, callCount_at0, hstep, hrun, hcA, hcB]
        rw [show ca + 1 + List.count true sch = ca + (List.count true sch + 1) by omega]
      · rw [resultsOf_cons_same, hA, hcA, List.range'_succ, List.map_cons]
      · rw [resultsOf_cons_other _ _ _ _ (by decide), hB, hcB]
    | false =>
      have hstep : (cb % 2 ^ 32 + 1) % 2 ^ 32 = (cb + 1) % 2 ^ 32 := by omega
      have hcB : List.count false (false :: sch) = List.count false sch + 1 :=
        List.count_cons_self _ _
      have hcA : List.count true (false :: sch) = List.count true sch :=
        List.count_cons_of_ne (by decide) sch
      obtain ⟨rs, hrun, hA, hB⟩ := ih ca (cb + 1)
      refine ⟨(false, .number (toSigned 32 ((cb + 1) % 2 ^ 32))) :: rs, ?_, ?_, ?_⟩
      · simp only [runSchedule, callCount_at1, hstep, hrun, hcA, hcB, Bool.false_eq_true,
          if_false]
        rw [show cb + 1 + List.count false sch = cb + (List.count false sch + 1) by omega]
      · rw [resultsOf_cons_other _ _ _ _ (by decide), hA, hcA]
      · rw [resultsOf_cons_same, hB, hcB, List.range'_succ, List.map_cons]


theorem global0_at0 (s : Store) :
    global0 (counterAt 0) s = s.globals.head?.map fun g => g.value.bits := by
  obtain ⟨gs⟩ := s
  cases gs <;> simp [global0, counterAt]

theorem global0_at1 (s : Store) :
    global0 (counterAt 1) s = (s.globals.tail.get? 0).map fun g => g.value.bits := by
  obtain ⟨gs⟩ := s
  cases gs <;> simp [global0, counterAt]

/-- C6: two instances created independently from the assembled module have their global at
different store addresses; a successful call on one leaves the global of the other
unchanged; and in every interleaving of calls, each instance returns exactly what a lone
fresh instance returns when called as many times as this instance was. -/
theorem C6_independent_instances :
    ∃ s0 a b, twoInstances = some (s0, a, b) ∧
      global0 a s0 = some 0 ∧ global0 b s0 = some 0 ∧
      (∀ s s' r, callCount a s = .ok (s', r) → global0 b s' = global0 b s) ∧
      (∀ s s' r, callCount b s = .ok (s', r) → global0 a s' = global0 a s) ∧
      ∀ sch : List Bool, ∃ s rs, runSchedule a b sch s0 = .ok (s, rs) ∧
        some (resultsOf true rs) = (clicks (sch.count true)).map Prod.snd ∧
        some (resultsOf false rs) = (clicks (sch.count false)).map Prod.snd ∧
        global0 a s = some (sch.count true % 2 ^ 32) ∧
        global0 b s = some (sch.count false % 2 ^ 32) := by
  refine ⟨_, _, _, twoInstances_eq, by decide, by decide, ?_, ?_, ?_⟩
  · intro s s' r h
    rw [global0_at1, global0_at1, callCount_at0_frame s s' r h]
  · intro s s' r h
    rw [global0_at0, global0_at0, callCount_at1_frame s s' r h]
  · intro sch
    obtain ⟨rs, hrun, hA, hB⟩ := runSchedule_eq sch 0 0
    simp only [Nat.zero_mod, Nat.zero_add] at hrun hA hB
    refine ⟨_, rs, hrun, ?_, ?_, ?_, ?_⟩
    · rw [hA, clicks_eq]; rfl
    · rw [hB, clicks_eq]; rfl
    · simp [global0, counterAt, counterGlobal]
    · simp [global0, counterAt, counterGlobal]

/-- C7: after the 8-byte header, walking the buffer by the size fields visits the section
ids 1, 3, 6, 7, 10 in this order, each once and strictly increasing; the sections the walk
finds are the parts pushed by the code, in the order they were pushed; and the walk uses
up the 53 bytes of the buffer exactly. -/
theorem C7_section_order :
    ∃ bs secs, wasm = some bs ∧ readSections (bs.drop 8).length (bs.drop 8) = some secs ∧
      secs.map Prod.fst = [1, 3, 6, 7, 10] ∧
      (secs.map Prod.fst).Pairwise (fun x y => x < y) ∧
      parts.map (fun ps => ps.tail.map fun sec => (sec.headD 0, sec.drop 2)) = some secs ∧
      parts.map (fun ps => ps.map fun sec => sec.take 1) =
        some [[0x00], [0x01], [0x03], [0x06], [0x07], [0x0A]] ∧
      bs.length = 53 ∧
      8 + (secs.map fun sec => 2 + sec.2.length).sum = bs.length :=
  ⟨wasmBytes,
    [(1, [1, 0x60, 0, 1, 0x7F]), (3, [1, 0]), (6, [1, 0x7F, 1, 0x41, 0, 0x0B]),
      (7, [1, 5, 0x63, 0x6F, 0x75, 0x6E, 0x74, 0, 0]),
      (10, [1, 11, 0, 0x23, 0, 0x41, 1, 0x6A, 0x24, 0, 0x23, 0, 0x0B])],
    by decide, by decide, by decide, by decide, by decide, by decide, by decide, by decide⟩

/-- C8: in the decoded module the single function references type 0 and one type is
declared; the export references function 0 and one function is declared; there is one
code body for the one function; every global index used in a body is below the number of
declared globals (1) and names a mutable global. -/
theorem C8_indices_agree :
    ∃ m, wasm.bind decode = some m ∧
      m.funcs = [0] ∧ m.types.length = 1 ∧
      m.exports.map (fun e => (e.kind, e.index)) = [(.func, 0)] ∧ m.funcs.length = 1 ∧
      m.codes.length = m.funcs.length ∧
      m.globals.length = 1 ∧
      m.codes.map (fun c => c.body.filterMap Instr.globalIndex) = [[0, 0, 0]] ∧
      ∀ c ∈ m.codes, ∀ x ∈ c.body.filterMap Instr.globalIndex,
        x < m.globals.length ∧ (m.globals.get? x).map Global.mutable = some true :=
  ⟨counterModule, by decide, by decide, by decide, by decide, by decide, by decide,
    by decide, by decide, by decide⟩

/-- C9: for every value `v` of global 0, the encoded instruction sequence runs from the
empty operand stack without an error at any instruction (no pop from an empty stack) and
reaches the end marker with exactly one `i32` value on the stack; the type checker gives
the same stack type, which is the result type of the declared signature `() -> i32`. -/
theorem C9_stack_discipline (v : Nat) :
    ∃ m inst body, wasm.bind decode = some m ∧ freshInstance.map Prod.snd = some inst ∧
      readExpr expr.length expr = some (body, []) ∧
      m.types = [⟨[], [.i32]⟩] ∧ m.funcs = [0] ∧ m.codes = [⟨[], body⟩] ∧
      checkInstrs ⟨globalTypes m, []⟩ body [] = some [.i32] ∧
      (∀ k, ∃ c, execInstrs inst (body.take k) ⟨⟨[counterGlobal v]⟩, [], []⟩ = .ok c) ∧
      ∃ s', execInstrs inst body ⟨⟨[counterGlobal v]⟩, [], []⟩ =
        .ok ⟨s', [], [⟨.i32, (v + 1) % 2 ^ 32⟩]⟩ := by
  refine ⟨counterModule, counterAt 0,
    [.globalGet 0, .i32Const 1, .i32Add, .globalSet 0, .globalGet 0],
    by decide, by decide, by decide, by decide, by decide, by decide, by decide, ?_, ?_⟩
  · intro k
    match k with
    | 0 => simp [execInstrs]
    | 1 => simp [execInstrs, execInstr, counterAt, counterGlobal]
    | 2 => simp [execInstrs, execInstr, counterAt, counterGlobal]
    | 3 => simp [execInstrs, execInstr, i32Binop, counterAt, counterGlobal]
    | 4 => simp [execInstrs, execInstr, i32Binop, counterAt, counterGlobal]
    | k + 5 => simp [execInstrs, execInstr, i32Binop, counterAt, counterGlobal]
  · simp [execInstrs, execInstr, i32Binop, counterAt, counterGlobal]

/-- C10: decoding the assembled buffer yields exactly the module with types `[() -> i32]`,
functions `[type 0]`, one mutable `i32` global initialised by `i32.const 0`, the export
`("count", function, 0)`, one body without locals and with the instructions `global.get 0,
i32.const 1, i32.add, global.set 0, global.get 0` before the end marker, and no other
section: none of the section ids found is import (2), table (4), memory (5), start (8),
element (9) or data (11). -/
theorem C10_decoded_module :
    wasm.bind decode = some
      { types := [⟨[], [.i32]⟩]
        funcs := [0]
        globals := [⟨.i32, true, [.i32Const 0]⟩]
        exports := [⟨asciiBytes "count", .func, 0⟩]
        codes := [⟨[], [.globalGet 0, .i32Const 1, .i32Add, .globalSet 0, .globalGet 0]⟩]
        others := [] } ∧
      wasmSections.map (fun secs => secs.all fun sec => sec.1 ∉ [2, 4, 5, 8, 9, 11]) =
        some true ∧
      (wasm.map fun bs => bs.drop 43) =
        some [0x23, 0x00, 0x41, 0x01, 0x6A, 0x24, 0x00, 0x23, 0x00, 0x0B] := by
  decide

/-- C11: the first 8 bytes of the assembled buffer are `00 61 73 6D 01 00 00 00`, that is
the byte 0 and the ASCII string `asm` followed by the little-endian 32-bit encoding of 1;
they are the first part pushed, and the id of the first section (1, the type section)
stands at offset 8. -/
theorem C11_header :
    wasm.map (fun bs => bs.take 8) = some [0x00, 0x61, 0x73, 0x6D, 0x01, 0x00, 0x00, 0x00] ∧
      wasm.map (fun bs => bs.take 4) = some (0 :: asciiBytes "asm") ∧
      wasm.map (fun bs => ((bs.drop 4).take 4).length) = some 4 ∧
      wasm.map (fun bs => littleEndian ((bs.drop 4).take 4)) = some 1 ∧
      parts.map List.head? = some (some magicAndVersion) ∧
      magicAndVersion.length = 8 ∧
      wasm.bind (fun bs => bs.get? 8) = some 1 ∧
      wasm.map (fun bs => bs.drop 8) =
        parts.map (fun ps => ps.tail.flatten) ∧
      parts.map (fun ps => ps.tail.head?) = some (some typeSection) := by
  decide

/-- C12: the assembled buffer does not depend on anything: the construction has no
parameter and no state, every evaluation of it succeeds with one and the same sequence, the
53 bytes written out in `wasmBytes`. -/
theorem C12_deterministic :
    wasm = some wasmBytes ∧ wasmBytes.length = 53 ∧
      ∀ first second : Bytes, wasm = some first ∧ wasm = some second →
        first = second ∧ first.length = 53 := by
  refine ⟨by decide, by decide, ?_⟩
  rintro first second ⟨h1, h2⟩
  have hw : wasm = some wasmBytes := by decide
  rw [hw] at h1 h2
  cases h1
  cases h2
  exact ⟨rfl, by decide⟩

/-- C14: the expression is 10 bytes, made of instructions of 2, 2, 1, 2, 2 bytes and the
1-byte end marker; the function body is the byte `0x00` followed by the expression, 11
bytes; the section content is `0x01`, `0x0B` and the body, 13 bytes; the code section is
the 15 bytes `0A 0D 01 0B 00 23 00 41 01 6A 24 00 23 00 0B`. -/
theorem C14_code_section_bytes :
    expr.length = 10 ∧ instrSizes expr.length expr = some [2, 2, 1, 2, 2, 1] ∧
      2 + 2 + 1 + 2 + 2 + 1 = expr.length ∧
      functionBody expr = some (0x00 :: expr) ∧
      (functionBody expr).map List.length = some 11 ∧
      ((functionBody expr).bind fun fb => (codeContent fb).map fun cc => (cc, cc.length)) =
        some (0x01 :: 0x0B :: 0x00 :: expr, 13) ∧
      buildCodeSection expr =
        some [0x0A, 0x0D, 0x01, 0x0B, 0x00, 0x23, 0x00, 0x41, 0x01, 0x6A, 0x24, 0x00, 0x23,
          0x00, 0x0B] ∧
      (buildCodeSection expr).map List.length = some 15 ∧
      parts.map (fun ps => ps.getLast?) = some (buildCodeSection expr) := by
  decide

theorem functionBody_eq (e : Bytes) : functionBody e = some (0x00 :: e) := by
  have h : 1 + e.length = e.length + 1 := Nat.add_comm _ _
  simp [functionBody, Uint8Array.ofLength, Uint8Array.store, Uint8Array.setFrom, h,
    List.replicate_succ]

theorem codeContent_eq (fb : Bytes) :
    codeContent fb = some (0x01 :: (fb.length % 256) :: fb) := by
  have h : 1 + 1 + fb.length = fb.length + 1 + 1 := by omega
  have h2 : 2 + fb.length = fb.length + 2 := by omega
  simp [codeContent, Uint8Array.ofLength, Uint8Array.store, Uint8Array.setFrom, h, h2,
    List.replicate_succ]

theorem codeSection_eq (cc : Bytes) :
    codeSection cc = some (0x0A :: (cc.length % 256) :: cc) := by
  have h : 1 + 1 + cc.length = cc.length + 1 + 1 := by omega
  have h2 : 2 + cc.length = cc.length + 2 := by omega
  simp [codeSection, Uint8Array.ofLength, Uint8Array.store, Uint8Array.setFrom, h, h2,
    List.replicate_succ]

/-- C13: for every sequence `e` of expression bytes with at most 124 bytes, lines 54-69
build the section `[0x0A, |e|+3, 0x01, |e|+1, 0x00]` followed by `e`: the body is `0x00`
followed by `e`, the body-size byte is the length of the body, and the section-size byte
is the length of the section content. -/
theorem C13_lengths_from_content (e : Bytes) (h : e.length ≤ 124) :
    ∃ fb cc cs, functionBody e = some fb ∧ codeContent fb = some cc ∧
      codeSection cc = some cs ∧ buildCodeSection e = some cs ∧
      cs = [0x0A, e.length + 3, 0x01, e.length + 1, 0x00] ++ e ∧
      fb = 0x00 :: e ∧ cc.drop 2 = fb ∧ cs.drop 2 = cc ∧
      cc.get? 1 = some fb.length ∧ cs.get? 1 = some cc.length := by
  have h1 : (e.length + 1) % 256 = e.length + 1 := Nat.mod_eq_of_lt (by omega)
  have h3 : (e.length + 1 + 1 + 1) % 256 = e.length + 3 := Nat.mod_eq_of_lt (by omega)
  refine ⟨0x00 :: e, 0x01 :: (e.length + 1) :: 0x00 :: e,
    0x0A :: (e.length + 3) :: 0x01 :: (e.length + 1) :: 0x00 :: e, functionBody_eq e, ?_, ?_,
    ?_, rfl, rfl, rfl, rfl, rfl, ?_⟩
  · rw [codeContent_eq, List.length_cons, h1]
  · rw [codeSection_eq]
    simp only [List.length_cons, h3]
  · simp only [buildCodeSection, functionBody_eq, codeContent_eq, codeSection_eq,
      Option.some_bind, List.length_cons, h1, h3]
  · simp

theorem C13_lengths_from_content_witness :
    ∃ fb cc cs, functionBody expr = some fb ∧ codeContent fb = some cc ∧
      codeSection cc = some cs ∧ buildCodeSection expr = some cs ∧
      cs = [0x0A, expr.length + 3, 0x01, expr.length + 1, 0x00] ++ expr ∧
      fb = 0x00 :: expr ∧ cc.drop 2 = fb ∧ cs.drop 2 = cc ∧
      cc.get? 1 = some fb.length ∧ cs.get? 1 = some cc.length :=
  C13_lengths_from_content expr (by decide)

theorem totalLength_from (ps : List Bytes) (a : Nat) :
    ps.foldl (fun sum part => sum + part.length) a = a + (ps.map List.length).sum := by
  induction ps generalizing a with
  | nil => simp
  | cons p ps ih => simp [List.foldl_cons, ih, Nat.add_assoc]

theorem totalLength_eq (ps : List Bytes) : totalLength ps = (ps.map List.length).sum := by
  simp [totalLength, totalLength_from]

/-- The loop writes the parts one behind the other from `offset` on, provided the buffer
has room for exactly them behind `offset`; what stands before `offset` is kept. -/
theorem copyParts_eq (ps : List Bytes) (w : Bytes) (offset : Nat)
    (h : w.length = offset + (ps.map List.length).sum) :
    copyParts ps w offset = some (w.take offset ++ ps.flatten) := by
  induction ps generalizing w offset with
  | nil =>
    simp only [List.map_nil, List.sum_nil, Nat.add_zero] at h
    simp [copyParts, ← h]
  | cons p ps ih =>
    simp only [List.map_cons, List.sum_cons] at h
    have hfit : offset + p.length ≤ w.length := by omega
    have hlen : (w.take offset ++ p ++ w.drop (offset + p.length)).length =
        offset + p.length + (ps.map List.length).sum := by
      simp only [List.length_append, List.length_take, List.length_drop]
      omega
    have htake : (w.take offset ++ p ++ w.drop (offset + p.length)).take (offset + p.length) =
        w.take offset ++ p := by
      apply List.take_left'
      simp only [List.length_append, List.length_take]
      omega
    simp only [copyParts, Uint8Array.setFrom, hfit, if_true, Option.some_bind]
    rw [ih _ _ hlen, htake]
    simp

theorem combine_eq (ps : List Bytes) : combine ps = some ps.flatten := by
  have h := copyParts_eq ps (Uint8Array.ofLength (totalLength ps)) 0
    (by simp [Uint8Array.ofLength, totalLength_eq])
  simpa [combine] using h

/-- C15: for every list of byte arrays the combining step yields their concatenation in
list order: the output has as many bytes as the parts together, which is the total that
the `reduce` computed, and part `k` stands in the output from the index that is the sum
of the lengths of the parts before it; for the six parts of the module the lengths are
8, 7, 4, 8, 11, 15 and the output has 53 bytes. -/
theorem C15_combine_is_concatenation (ps : List Bytes) :
    ∃ out, combine ps = some out ∧ out = ps.flatten ∧
      out.length = (ps.map List.length).sum ∧ totalLength ps = out.length ∧
      (∀ k (hk : k < ps.length),
        (out.drop ((ps.map List.length).take k).sum).take ps[k].length = ps[k]) ∧
      parts.map (fun six => six.map List.length) = some [8, 7, 4, 8, 11, 15] ∧
      wasm.map List.length = some (8 + 7 + 4 + 8 + 11 + 15) ∧
      wasm.map List.length = some 53 := by
  refine ⟨ps.flatten, combine_eq ps, rfl, ?_, ?_, ?_, by decide, by decide, by decide⟩
  · simp [List.length_flatten]
  · rw [totalLength_eq]
    simp [List.length_flatten]
  · intro k hk
    rw [List.drop_sum_flatten, List.drop_eq_getElem_cons hk, List.flatten_cons]
    exact List.take_left' rfl

theorem toSigned_eq_iff (m : Nat) : toSigned 32 (m % 2 ^ 32) = (m : Int) ↔ m < 2 ^ 31 := by
  constructor
  · intro h
    by_contra hm
    simp only [toSigned] at h
    norm_num at h hm
    split at h
    · have h' : m % 4294967296 = m := by exact_mod_cast h
      omega
    · have hlt : m % 4294967296 < 4294967296 := Nat.mod_lt _ (by decide)
      have hcast : ((m % 4294967296 : Nat) : Int) < 4294967296 := by exact_mod_cast hlt
      have hnn : (0 : Int) ≤ (m : Int) := Int.ofNat_nonneg m
      push_cast at hcast
      omega
  · exact toSigned_small m

/-- C17: the counter wraps modulo `2^32`: after `n` calls on a fresh instance global 0 holds
`n mod 2^32`; the call number `n + 1` returns the signed 32-bit reading of
`(n + 1) mod 2^32`, which equals the call number exactly when the call number is below
`2^31`; call number `2^31` returns -2147483648 and call number `2^32` returns 0. -/
theorem C17_wrapping (n : Nat) :
    ((clicks n).bind fun r => freshInstance.bind fun si => global0 si.2 r.1) =
        some (n % 2 ^ 32) ∧
      nthCall (n + 1) = some (.number (toSigned 32 ((n + 1) % 2 ^ 32))) ∧
      (nthCall (n + 1) = some (.number ((n + 1 : Nat) : Int)) ↔ n + 1 < 2 ^ 31) ∧
      nthCall (2 ^ 31) = some (.number (-2147483648)) ∧
      nthCall (2 ^ 32) = some (.number 0) := by
  refine ⟨?_, nthCall_eq (n + 1) (by omega), ?_, ?_, ?_⟩
  · rw [clicks_eq, freshInstance_eq]
    simp [global0, counterAt, counterGlobal]
  · rw [nthCall_eq (n + 1) (by omega)]
    simp only [Option.some.injEq, JsValue.number.injEq]
    exact toSigned_eq_iff (n + 1)
  · rw [nthCall_eq (2 ^ 31) (by decide)]
    decide
  · rw [nthCall_eq (2 ^ 32) (by decide)]
    decide

/-- C16 (the code at a failing input): for the text `(module)` host compilation fails and
`wat2wasm` returns the rejected promise of `WebAssembly.compile`, not the result of
`createCounterWasm()`, which is a promise resolved with the counter module.  The same
holds for every text whose bytes the host does not compile.  The `catch` branch is taken
only by a host whose `compile` throws to its caller, and when compilation succeeds
`wat2wasm` returns the host's module. -/
theorem C16_no_fallback_on_rejection :
    TextEncoder.encode "(module)" = [0x28, 0x6D, 0x6F, 0x64, 0x75, 0x6C, 0x65, 0x29] ∧
      compile (TextEncoder.encode "(module)") = none ∧
      wat2wasm "(module)" = .ok (.rejected .compileError) ∧
      createCounterWasmCall = .ok (.resolved counterModule) ∧
      wat2wasm "(module)" ≠ createCounterWasmCall ∧
      (∀ wat, compile (TextEncoder.encode wat) = none →
        wat2wasm wat = .ok (.rejected .compileError)) ∧
      (∀ wat m, compile (TextEncoder.encode wat) = some m →
        wat2wasm wat = .ok (.resolved m)) ∧
      (∀ wat host e, host (TextEncoder.encode wat) = .error e →
        wat2wasmWith host wat = createCounterWasmWith host) := by
  have hcomp : compile wasmBytes = some counterModule := by decide
  have hcall : createCounterWasmCall = .ok (.resolved counterModule) := by
    simp only [createCounterWasmCall, createCounterWasmWith, wasm_eq, WebAssembly.compile,
      hcomp]
  have hfail : ∀ wat, compile (TextEncoder.encode wat) = none →
      wat2wasm wat = .ok (.rejected .compileError) := by
    intro wat h
    simp only [wat2wasm, wat2wasmWith, WebAssembly.compile, h]
  have hnone : compile (TextEncoder.encode "(module)") = none := by decide
  refine ⟨by decide, hnone, hfail _ hnone, hcall, ?_, hfail, ?_, ?_⟩
  · rw [hfail _ hnone, hcall]
    exact fun h => by injection h with h; injection h
  · intro wat m h
    simp only [wat2wasm, wat2wasmWith, WebAssembly.compile, h]
  · intro wat host e h
    simp only [wat2wasmWith, h]

/-- C18: written as fields of the binary format, the decoded module gives back the assembled
buffer with every number in its shortest LEB128 encoding.  The unsigned numbers (section
sizes, body size, vector counts, name length, indices) are 5, 1, 0, 1, 2, 1, 0, 6, 1, 9,
1, 5, 0, 13, 1, 11, 0, 0, 0, 0 and the signed ones (the `i32.const` operands) are 0 and 1;
all are below 64, and every number below 64 is one byte in both encodings, equal to the
number, which the decoder reads back.  The lengths 11 and 13 stored by lines 62 and 68 are
below 256, so the stores keep them. -/
theorem C18_single_byte_fields :
    ∃ bs m fb cc, wasm = some bs ∧ decode bs = some m ∧ render (moduleFields m) = bs ∧
      unsignedValues (moduleFields m) =
        [5, 1, 0, 1, 2, 1, 0, 6, 1, 9, 1, 5, 0, 13, 1, 11, 0, 0, 0, 0] ∧
      signedValues (moduleFields m) = [0, 1] ∧
      (∀ v ∈ unsignedValues (moduleFields m), v < 64) ∧
      (∀ v ∈ signedValues (moduleFields m), 0 ≤ v ∧ v < 64) ∧
      (∀ v, v < 64 → encodeU 5 v = [v] ∧ readU 32 [v] = some (v, []) ∧
        encodeS 5 (v : Int) = [v] ∧ readS 32 [v] = some ((v : Int), [])) ∧
      functionBody expr = some fb ∧ codeContent fb = some cc ∧
      fb.length = 11 ∧ cc.length = 13 ∧
      fb.length % 256 = fb.length ∧ cc.length % 256 = cc.length ∧
      cc.get? 1 = some fb.length ∧
      (codeSection cc).map (fun cs => cs.get? 1) = some (some cc.length) := by
  refine ⟨wasmBytes, counterModule, 0x00 :: expr, 0x01 :: 0x0B :: 0x00 :: expr, ?_⟩
  decide

end Counter
